import Mathlib

/-!
# Verification of the upload queue and batching engine

Shallow embedding of `src/hooks/use-upload-manager.ts` (both revisions kept in
the repository: the newer one exposing an explicit `startBatchUpload` action
together with an auto-upload effect, and the older one built around
`processQueue`/`uploadBatch`), plus the parts of `src/types/upload.ts` the
hook depends on.

Conventions:
* JavaScript numbers that the code only ever uses as machine integers
  (byte sizes, counts, percentages, timestamps in ms) are `Nat`/`Int`;
  the two fractional computations (`Math.round` of a quotient in
  `getProgress`, and the ETA estimate) are carried out exactly over `ℚ`
  resp. via exact rational rounding, with `Math.round x = ⌊x + 1/2⌋`.
* `undefined`/absent JS fields are `Option.none`; JS `a || b` on
  string-or-absent values is `Option.orElse` (absent and falsy collapse
  to `none`).
* `URL.createObjectURL(file)` is modelled as a deterministic local
  placeholder derived from the file (the code only ever treats it as an
  opaque synthesized location).
* React state updates (`setFiles(prev => ...)`) are modelled as pure
  functions on the files list; asynchronous interleavings are modelled
  as small-step transition relations.
-/

/-- `src/types/upload.ts`: `UploadStatus`. -/
inductive UploadStatus where
  | pending
  | uploading
  | success
  | error
  | cancelled
deriving DecidableEq, Repr

/-- A JS `File` value as the hook reads it: `name`, `size`, `type`
(the raw bytes are opaque to the manager). -/
structure JSFile where
  name : String
  size : Nat
  type : String
deriving DecidableEq, Repr

/-- `src/types/upload.ts`: `UploadFile`.  `abortController` presence is
modelled by the Boolean `hasAbort` (the manager only ever stores one and
calls `abort()` on it). -/
structure UploadFile where
  id : Nat
  file : JSFile
  name : String
  size : Nat
  type : String
  progress : Nat
  eta : Int
  status : UploadStatus
  error : Option String := none
  uploadedUrl : Option String := none
  hasAbort : Bool := false
  startTime : Option Nat := none
deriving DecidableEq, Repr

/-- `src/types/upload.ts`: `UploadManagerConfig`. -/
structure UploadManagerConfig where
  maxFiles : Nat
  maxFileSize : Nat
  allowedTypes : List String
  concurrency : Nat
  enableBatching : Bool
  batchSize : Nat
deriving DecidableEq, Repr

/-- The hardcoded fallback configuration of `getDefaultConfig`. -/
def defaultConfig : UploadManagerConfig where
  maxFiles := 50
  maxFileSize := 256 * 1024 * 1024
  allowedTypes := ["image/jpeg", "image/jpg", "image/png", "image/webp", "image/heic"]
  concurrency := 3
  enableBatching := true
  batchSize := 5

/-- `src/types/upload.ts`: `UploadProgress`. -/
structure UploadProgress where
  totalFiles : Nat
  completedFiles : Nat
  failedFiles : Nat
  overallProgress : Nat
  isUploading : Bool
deriving DecidableEq, Repr

/-- JavaScript `Math.round` on an exact nonnegative quotient `a / b`
(`b > 0`): round half toward `+∞`, i.e. `⌊a/b + 1/2⌋ = (2a + b) / (2b)`
in integer division. -/
def jsRoundDiv (a b : Nat) : Nat := (2 * a + b) / (2 * b)

/-- JavaScript `Math.round` over exact rationals: round half toward `+∞`. -/
def jsRound (x : ℚ) : Int := ⌊x + 1 / 2⌋

/-- Model of `URL.createObjectURL(file)`: a locally synthesized placeholder
location for the given file. -/
def createObjectURL (f : JSFile) : String := "blob:" ++ f.name

/-- JS `Number.toFixed` applied to `bytes / 1024 / 1024`, one decimal digit
(used in the oversize message).  Decimal rendering of the float is
approximated by exact rational rounding of `10 * bytes / 2^20`. -/
def sizeMBString (bytes : Nat) : String :=
  let tenths := jsRoundDiv (bytes * 10) (1024 * 1024)
  toString (tenths / 10) ++ "." ++ toString (tenths % 10)

/-- JS `Number.toFixed(0)` applied to `bytes / 1024 / 1024`
(used for the configured limit in the oversize message). -/
def limitMBString (bytes : Nat) : String :=
  toString (jsRoundDiv bytes (1024 * 1024))

/-- `validateFile` (identical in both revisions), in the default-language
branch (the optional translation table `t` absent): returns `none` for a
valid file and `some message` otherwise. -/
def validateFile (cfg : UploadManagerConfig) (file : JSFile) : Option String :=
  if ¬ cfg.allowedTypes.contains file.type then
    some ("File type " ++ file.type ++ " is not allowed. Allowed types: "
      ++ String.intercalate ", " cfg.allowedTypes)
  else if file.size > cfg.maxFileSize then
    some ("File size " ++ sizeMBString file.size ++ "MB exceeds limit of "
      ++ limitMBString cfg.maxFileSize ++ "MB")
  else
    none

/-- The queue-full rejection message of `addFiles`
(`Maximum ${maxFiles} files allowed`). -/
def maxFilesMsg (cfg : UploadManagerConfig) : String :=
  "Maximum " ++ toString cfg.maxFiles ++ " files allowed"

/-- The fresh `UploadFile` built by `addFiles` for an accepted candidate.
`generateId` (timestamp + random suffix, unique per call) is modelled by a
fresh counter value threaded through admission. -/
def mkUploadFile (nid : Nat) (file : JSFile) : UploadFile where
  id := nid
  file := file
  name := file.name
  size := file.size
  type := file.type
  progress := 0
  eta := 0
  status := .pending

/-- The `forEach` loop body of `addFiles`: walks the candidates carrying the
number `k` of files accepted so far and the fresh-id counter, and returns the
accepted new entries together with the rejection messages.  The capacity
check `files.length + newFiles.length >= maxFiles` precedes validation,
exactly as in the source. -/
def addFilesGo (cfg : UploadManagerConfig) (qLen : Nat) :
    Nat → Nat → List JSFile → List UploadFile × List String
  | _, _, [] => ([], [])
  | k, nid, file :: rest =>
    if qLen + k ≥ cfg.maxFiles then
      let (nfs, errs) := addFilesGo cfg qLen k nid rest
      (nfs, maxFilesMsg cfg :: errs)
    else
      match validateFile cfg file with
      | some msg =>
        let (nfs, errs) := addFilesGo cfg qLen k nid rest
        (nfs, (file.name ++ ": " ++ msg) :: errs)
      | none =>
        let (nfs, errs) := addFilesGo cfg qLen (k + 1) (nid + 1) rest
        (mkUploadFile nid file :: nfs, errs)

/-- Result of one `addFiles` call: the updated queue, the rejection
messages, the `addedFiles` count of the returned record, and the advanced
fresh-id counter. -/
structure AddFilesResult where
  files : List UploadFile
  errors : List String
  added : Nat
  nextId : Nat
deriving Repr

/-- `addFiles` (identical in both revisions up to the auto-start side
effect, handled separately): validates each candidate against the capacity
and `validateFile`, appends the accepted entries to the queue in order and
returns `{ addedFiles, errors }`. -/
def addFiles (cfg : UploadManagerConfig) (queue : List UploadFile) (nextId : Nat)
    (candidates : List JSFile) : AddFilesResult :=
  let (newFiles, errors) := addFilesGo cfg queue.length 0 nextId candidates
  { files := queue ++ newFiles
    errors := errors
    added := newFiles.length
    nextId := nextId + newFiles.length }

/-- `getProgress` (identical in both revisions): derives the aggregate
`UploadProgress` record from the current files list. -/
def getProgress (files : List UploadFile) : UploadProgress :=
  let totalFiles := files.length
  let completedFiles := (files.filter fun f => f.status = .success).length
  let failedFiles := (files.filter fun f => f.status = .error).length
  let uploadingFiles := files.filter fun f => f.status = .uploading
  let overallProgress :=
    if totalFiles > 0 then
      let completedProgress := completedFiles * 100
      let uploadingProgress := uploadingFiles.foldl (fun sum f => sum + f.progress) 0
      jsRoundDiv (completedProgress + uploadingProgress) totalFiles
    else 0
  { totalFiles := totalFiles
    completedFiles := completedFiles
    failedFiles := failedFiles
    overallProgress := overallProgress
    isUploading := uploadingFiles.length > 0 }

/-- `calculateETA` (identical in both revisions), evaluated at current time
`now` (ms): `0` without a start timestamp or before the first progress
sample, else `Math.round((100 - progress) / (progress / elapsedSeconds))`.
Carried out exactly over `ℚ`; note that `ℚ`'s division-by-zero convention
(`x / 0 = 0`) coincides with the JS evaluation at `elapsed = 0`
(`remaining / Infinity = 0`). -/
def calculateETA (now : Nat) (f : UploadFile) : Int :=
  match f.startTime with
  | none => 0
  | some st =>
    if f.progress = 0 then 0
    else
      let elapsed : ℚ := ((now : ℚ) - (st : ℚ)) / 1000
      let rate : ℚ := (f.progress : ℚ) / elapsed
      let remaining : ℚ := 100 - (f.progress : ℚ)
      jsRound (remaining / rate)


/-- `updateFileStatus(id, status, error?, uploadedUrl?)`: replaces the
`status`, `error` and `uploadedUrl` fields of every entry with the given id
(passing `undefined` clears the field). -/
def updateFileStatus (files : List UploadFile) (id : Nat) (status : UploadStatus)
    (err : Option String) (url : Option String) : List UploadFile :=
  files.map fun f =>
    if f.id = id then { f with status := status, error := err, uploadedUrl := url } else f

/-- The `success` update performed on one file: status `success`, error
cleared, the resolved location recorded. -/
def markSuccess (f : UploadFile) (url : String) : UploadFile :=
  { f with status := .success, error := none, uploadedUrl := some url }

/-- The `error` update performed on one file: status `error`, message
recorded, `uploadedUrl` cleared (it is passed as `undefined`). -/
def markError (f : UploadFile) (msg : String) : UploadFile :=
  { f with status := .error, error := some msg, uploadedUrl := none }

/-- The `cancelled` update performed on one file. -/
def markCancelled (f : UploadFile) : UploadFile :=
  { f with status := .cancelled, error := none, uploadedUrl := none }

/-- The `uploading` update performed on one file when a Transfer Unit claims
it: `{ ...file, status: 'uploading', abortController, startTime: Date.now() }`
(note: `progress`, `error` and `uploadedUrl` are *not* reset). -/
def markUploading (now : Nat) (f : UploadFile) : UploadFile :=
  { f with status := .uploading, hasAbort := true, startTime := some now }

/-- One element of the structured batch response array: the JS object's
`success`, `url`, `file_url` and `error` fields, each possibly absent
(absent/falsy modelled as `none`). -/
structure BatchOutcome where
  success : Option Bool := none
  url : Option String := none
  fileUrl : Option String := none
  error : Option String := none
deriving DecidableEq, Repr

/-- `result.url || result.file_url || URL.createObjectURL(file.file)`. -/
def resolvedUrl (r : BatchOutcome) (f : UploadFile) : String :=
  (r.url.orElse fun _ => r.fileUrl).getD (createObjectURL f.file)

/-- The per-index branch of `uploadBatch`'s aligned response handling:
`if (result && (result.success !== false))` mark success with the resolved
location, `else` mark error with `result?.error || 'Upload failed'`.
`none` is a null/absent (falsy) array element. -/
def settleAligned (f : UploadFile) (o : Option BatchOutcome) : UploadFile :=
  match o with
  | some r =>
    if r.success ≠ some false then markSuccess f (resolvedUrl r f)
    else markError f (r.error.getD "Upload failed")
  | none => markError f "Upload failed"

/-- The aligned branch of `uploadBatch` applied to the whole batch: entry
`i` is settled against response element `i` (the code runs it only when the
two lists have equal length). -/
def applyAligned (files : List UploadFile) (rs : List (Option BatchOutcome)) : List UploadFile :=
  files.mapIdx fun i f => settleAligned f (rs.getD i none)

/-- The body (`response.data`) of a successful batch POST as `uploadBatch`
reads it: an optional `results`/`files` array plus optional top-level
`url`/`file_url` fields. -/
structure BatchResponseBody where
  results : Option (List (Option BatchOutcome)) := none
  url : Option String := none
  fileUrl : Option String := none
deriving DecidableEq, Repr

/-- Terminal outcome of one `uploadBatch` network call. -/
inductive BatchSettle where
  /-- the POST resolved; carries the response body -/
  | ok (body : BatchResponseBody)
  /-- `axios.isCancel(error)`: the transfer was aborted -/
  | aborted
  /-- `error.code === 'ECONNABORTED'`: client-side timeout -/
  | timedOut
  /-- any other transport/remote failure, carrying the derived message -/
  | failed (msg : String)
deriving DecidableEq, Repr

/-- Position of `id` in the packed batch (first match), mirroring the
`files.forEach((file, index) => ...)` walk of `uploadBatch`. -/
def batchIdx (ids : List Nat) (id : Nat) : Option Nat :=
  match ids with
  | [] => none
  | i :: rest => if id = i then some 0 else (batchIdx rest id).map (· + 1)

/-- How `uploadBatch` settles the file packed at position `i` of a batch of
`n` files, given the settle outcome. -/
def settleBatchFile (settle : BatchSettle) (n i : Nat) (f : UploadFile) : UploadFile :=
  match settle with
  | .ok body =>
    let rs := body.results.getD []
    if rs.length = n then settleAligned f (rs.getD i none)
    else markSuccess f (((body.url).orElse fun _ => body.fileUrl).getD (createObjectURL f.file))
  | .aborted => markCancelled f
  | .timedOut => markError f "Upload timed out"
  | .failed msg => markError f msg

/-- `removeFile` result: the new queue plus the ids whose live transfer was
aborted (`file?.abortController && file.status === 'uploading'`). -/
def removeFile (files : List UploadFile) (id : Nat) : List UploadFile × List Nat :=
  let aborted :=
    match files.find? (fun f => f.id = id) with
    | some f => if f.hasAbort ∧ f.status = .uploading then [id] else []
    | none => []
  (files.filter fun f => ¬ f.id = id, aborted)

/-- The reset entry built by `retryFile`: back to `pending`, progress/eta
zeroed, error, cancellation handle and start timestamp cleared
(`uploadedUrl` is *not* touched). -/
def resetFileOf (f : UploadFile) : UploadFile :=
  { f with status := .pending, progress := 0, eta := 0, error := none,
           hasAbort := false, startTime := none }

/-- `retryFile` (newer revision, which schedules nothing and never aborts):
the new queue plus the ids aborted (always `[]`). -/
def retryFile (files : List UploadFile) (id : Nat) : List UploadFile × List Nat :=
  match files.find? (fun f => f.id = id) with
  | none => (files, [])
  | some f => (files.map fun g => if g.id = id then resetFileOf f else g, [])

/-- `updateFileProgress(id, progress)`: sets the new progress and
recomputes the ETA from it. -/
def updateFileProgress (now : Nat) (files : List UploadFile) (id : Nat) (progress : Nat) :
    List UploadFile :=
  files.map fun f =>
    if f.id = id then
      let updated := { f with progress := progress }
      { updated with eta := calculateETA now updated }
    else f

/-! ## Newer revision: explicit `startBatchUpload` plus the auto-upload effect

The observable we track for the no-auto-start claims is the number of
outgoing network requests (`axios.post` calls): `uploadSingleFile` performs
exactly one POST per file it is given. -/

/-- Manager state of the newer revision, instrumented with the two counters
the temporal claims are about: `invocations` counts outgoing POST requests
(Transfer Unit invocations) and `callerStarts` counts explicit caller
invocations of `startBatchUpload`. -/
structure ManagerState where
  files : List UploadFile
  nextId : Nat
  autoUpload : Bool
  invocations : Nat
  callerStarts : Nat
deriving Repr

/-- The initial manager state (`files = []`, `autoUploadRef.current = false`). -/
def initManagerState : ManagerState where
  files := []
  nextId := 0
  autoUpload := false
  invocations := 0
  callerStarts := 0

/-- Number of `pending` entries. -/
def pendingCount (files : List UploadFile) : Nat :=
  (files.filter fun f => f.status = .pending).length

/-- The newer revision's `startBatchUpload` drain: it filters the `pending`
entries and hands each one individually to `uploadSingleFile` (one POST per
file), at most `concurrency` in flight at a time.  The concurrency-limited
interleaving does not change how many POSTs are issued, so the drain is
collapsed into one step that claims every pending file and counts one
invocation per file.  Note that the batching configuration is not consulted
anywhere in this code path. -/
def startBatchUpload (now : Nat) (s : ManagerState) : ManagerState :=
  let pend := s.files.filter fun f => f.status = .pending
  if pend.length = 0 then s
  else
    { s with
      files := s.files.map fun f =>
        if f.status = .pending then markUploading now f else f
      invocations := s.invocations + pend.length }

/-- The `useEffect` on `[files]` of the newer revision: when the one-shot
`autoUploadRef` flag is set and some entry is pending, it clears the flag
and calls `startBatchUpload()` itself (inside `setTimeout(..., 100)`),
without any caller involvement. -/
def autoUploadEffect (now : Nat) (s : ManagerState) : ManagerState :=
  if s.autoUpload ∧ s.files.any fun f => f.status = .pending then
    startBatchUpload now { s with autoUpload := false }
  else s

/-- The synchronous part of the newer revision's `addFiles`: admission via
`addFiles` plus the side effect `autoUploadRef.current = true` when at
least one file was accepted.  No network request is made here. -/
def addFilesRaw (cfg : UploadManagerConfig) (s : ManagerState) (candidates : List JSFile) :
    ManagerState × List String × Nat :=
  let r := addFiles cfg s.files s.nextId candidates
  ({ s with
      files := r.files
      nextId := r.nextId
      autoUpload := s.autoUpload ∨ r.added > 0 },
    r.errors, r.added)

/-- One `addFiles` call as observed by the caller of the newer revision:
the synchronous admission followed by the React effect flush (which runs
automatically after the state update). -/
def addFilesStep (cfg : UploadManagerConfig) (now : Nat) (s : ManagerState)
    (candidates : List JSFile) : ManagerState :=
  autoUploadEffect now (addFilesRaw cfg s candidates).1

/-- An explicit caller invocation of `startBatchUpload`. -/
def callerStart (now : Nat) (s : ManagerState) : ManagerState :=
  startBatchUpload now { s with callerStarts := s.callerStarts + 1 }

/-! ### Event-level transition system of the newer revision

Used for the queue-entry invariants: each constructor is one of the state
updates the hook can apply to the files list, with the asynchronous
callbacks interleaved arbitrarily. -/

/-- Events of the newer revision acting on the files list. -/
inductive ManagerEvent where
  /-- an `addFiles` call admitting the given candidates -/
  | admitFiles (candidates : List JSFile)
  /-- `uploadSingleFile` claims the entry: `status: 'uploading'`,
  cancellation handle and start timestamp recorded -/
  | claim (id now : Nat)
  /-- the POST resolved: `updateFileStatus(id, 'success', undefined,
  result?.url || result?.file_url || URL.createObjectURL(file))` -/
  | settleSuccess (id : Nat) (url fileUrl : Option String)
  /-- a failure branch: `updateFileStatus(id, 'error', msg)` -/
  | settleError (id : Nat) (msg : String)
  /-- `axios.isCancel`: `updateFileStatus(id, 'cancelled')` -/
  | settleCancelled (id : Nat)
  /-- an `onUploadProgress` callback: `updateFileProgress(id, p)` -/
  | reportProgress (id p now : Nat)
  /-- a `retryFile(id)` call -/
  | retry (id : Nat)
  /-- a `removeFile(id)` call -/
  | remove (id : Nat)
  /-- a `clearAll()` call -/
  | clearAll

/-- Effect of one event on `(files, nextId)`. -/
def managerStep (cfg : UploadManagerConfig) :
    List UploadFile × Nat → ManagerEvent → List UploadFile × Nat
  | (files, nid), .admitFiles cands =>
    let r := addFiles cfg files nid cands
    (r.files, r.nextId)
  | (files, nid), .claim id now =>
    (files.map fun f => if f.id = id then markUploading now f else f, nid)
  | (files, nid), .settleSuccess id url fileUrl =>
    (files.map fun f =>
      if f.id = id then
        markSuccess f ((url.orElse fun _ => fileUrl).getD (createObjectURL f.file))
      else f, nid)
  | (files, nid), .settleError id msg => (updateFileStatus files id .error (some msg) none, nid)
  | (files, nid), .settleCancelled id => (updateFileStatus files id .cancelled none none, nid)
  | (files, nid), .reportProgress id p now => (updateFileProgress now files id p, nid)
  | (files, nid), .retry id => ((retryFile files id).1, nid)
  | (files, nid), .remove id => ((removeFile files id).1, nid)
  | (_, nid), .clearAll => ([], nid)

/-- Queue states reachable from the empty manager by any interleaving of
events. -/
inductive ManagerReachable (cfg : UploadManagerConfig) : List UploadFile × Nat → Prop where
  | init : ManagerReachable cfg ([], 0)
  | step {s : List UploadFile × Nat} (e : ManagerEvent) :
      ManagerReachable cfg s → ManagerReachable cfg (managerStep cfg s e)

/-! ## Older revision: `processQueue` / `uploadBatch` scheduler

State of the scheduler together with the bookkeeping `uploadBatch` and
`processQueue` share: the React `files` state (the only store that
receives status updates), the `uploadQueueRef.current` mirror list,
the `activeUploadsRef` id set, the batches currently in flight, and an
append-only log of the Transfer Unit invocations issued (each log entry
is the list of files packed into one outgoing POST).

`uploadQueueRef` is written only by `addFiles` (appends the new `pending`
entries), `removeFile` (filters by id), `retryFile` (replaces by the
`pending` reset) and `clearAll`; every status transition goes through
`setFiles` alone.  Its entries therefore stay at `status = 'pending'`
forever — the ref is a stale mirror, and `processQueue` selects from it. -/

structure SchedulerState where
  files : List UploadFile
  queueRef : List UploadFile
  active : List Nat
  inflight : List (List Nat)
  unitLog : List (List UploadFile)
deriving Repr

/-- The pending files `processQueue` considers:
`uploadQueueRef.current.filter(file => file.status === 'pending' &&
!activeUploadsRef.current.has(file.id))` — note the filter runs over the
ref, whose entries never receive status updates, not over the live `files`
state. -/
def pendingNotActive (s : SchedulerState) : List UploadFile :=
  s.queueRef.filter fun f => f.status = .pending ∧ f.id ∉ s.active

/-- `processQueue` (older revision).  With batching enabled
(`enableBatching && batchSize && batchSize > 1`) it starts a single batch of
up to `batchSize` schedulable ref entries whenever `availableSlots > 0`
(the `while` loop always `break`s after the first batch); otherwise it
starts `min(availableSlots, pending.length)` individual uploads.  Every
started id is added to `activeUploadsRef`, and `uploadBatch`/`uploadFile`
mark the corresponding entries of the `files` state `uploading`
(`setFiles(prev => prev.map(...))`); the ref itself is untouched. -/
def processQueue (cfg : UploadManagerConfig) (now : Nat) (s : SchedulerState) :
    SchedulerState :=
  let pend := pendingNotActive s
  if cfg.enableBatching ∧ 1 < cfg.batchSize then
    if s.active.length < cfg.concurrency ∧ pend ≠ [] then
      let batch := pend.take cfg.batchSize
      let ids := batch.map (·.id)
      { files := s.files.map fun f => if f.id ∈ ids then markUploading now f else f
        queueRef := s.queueRef
        active := s.active ++ ids
        inflight := s.inflight ++ [ids]
        unitLog := s.unitLog ++ [batch] }
    else s
  else
    let started := pend.take (cfg.concurrency - s.active.length)
    let ids := started.map (·.id)
    { files := s.files.map fun f => if f.id ∈ ids then markUploading now f else f
      queueRef := s.queueRef
      active := s.active ++ ids
      inflight := s.inflight ++ ids.map (fun i => [i])
      unitLog := s.unitLog ++ started.map (fun f => [f]) }

/-- Settlement of one in-flight Transfer Unit (the end of `uploadBatch`):
every packed file is settled according to the outcome in the `files` state
(`updateFileStatus`), the batch's ids are removed from `activeUploadsRef`,
and the `finally` block re-invokes `processQueue` to fill the freed slots —
which selects from the stale ref again, so the just-settled entries (still
`pending` there) can immediately be re-batched. -/
def settleUnit (cfg : UploadManagerConfig) (now : Nat) (s : SchedulerState)
    (ids : List Nat) (settle : BatchSettle) : SchedulerState :=
  let n := ids.length
  let settled := s.files.map fun f =>
    match batchIdx ids f.id with
    | some i => settleBatchFile settle n i f
    | none => f
  processQueue cfg now
    { files := settled
      queueRef := s.queueRef
      active := s.active.filter fun a => a ∉ ids
      inflight := s.inflight.erase ids
      unitLog := s.unitLog }

/-- Scheduler states reachable from a staged all-pending queue (where the
`files` state and the ref hold the same entries, as `addFiles` appends the
same objects to both) by any interleaving of `processQueue` invocations and
Transfer Unit settlements. -/
inductive SchedulerReachable (cfg : UploadManagerConfig) : SchedulerState → Prop where
  | init (files : List UploadFile) :
      (∀ f ∈ files, f.status = .pending) → (files.map UploadFile.id).Nodup →
      SchedulerReachable cfg ⟨files, files, [], [], []⟩
  | sched {s : SchedulerState} (now : Nat) :
      SchedulerReachable cfg s → SchedulerReachable cfg (processQueue cfg now s)
  | settle {s : SchedulerState} (now : Nat) (ids : List Nat) (outcome : BatchSettle) :
      SchedulerReachable cfg s → ids ∈ s.inflight →
      SchedulerReachable cfg (settleUnit cfg now s ids outcome)

/-! ## Helper lemmas -/

@[simp] theorem markSuccess_status (f : UploadFile) (u : String) :
    (markSuccess f u).status = .success := rfl

@[simp] theorem markSuccess_uploadedUrl (f : UploadFile) (u : String) :
    (markSuccess f u).uploadedUrl = some u := rfl

@[simp] theorem markSuccess_id (f : UploadFile) (u : String) :
    (markSuccess f u).id = f.id := rfl

@[simp] theorem markError_status (f : UploadFile) (m : String) :
    (markError f m).status = .error := rfl

@[simp] theorem markError_uploadedUrl (f : UploadFile) (m : String) :
    (markError f m).uploadedUrl = none := rfl

@[simp] theorem markError_id (f : UploadFile) (m : String) :
    (markError f m).id = f.id := rfl

@[simp] theorem markCancelled_status (f : UploadFile) :
    (markCancelled f).status = .cancelled := rfl

@[simp] theorem markCancelled_id (f : UploadFile) :
    (markCancelled f).id = f.id := rfl

@[simp] theorem markUploading_status (now : Nat) (f : UploadFile) :
    (markUploading now f).status = .uploading := rfl

@[simp] theorem markUploading_id (now : Nat) (f : UploadFile) :
    (markUploading now f).id = f.id := rfl

@[simp] theorem markUploading_uploadedUrl (now : Nat) (f : UploadFile) :
    (markUploading now f).uploadedUrl = f.uploadedUrl := rfl

@[simp] theorem resetFileOf_status (f : UploadFile) : (resetFileOf f).status = .pending := rfl

@[simp] theorem resetFileOf_id (f : UploadFile) : (resetFileOf f).id = f.id := rfl

@[simp] theorem mkUploadFile_status (nid : Nat) (c : JSFile) :
    (mkUploadFile nid c).status = .pending := rfl

theorem settleAligned_id (f : UploadFile) (o : Option BatchOutcome) :
    (settleAligned f o).id = f.id := by
  unfold settleAligned
  cases o with
  | none => rfl
  | some r => dsimp only; split <;> rfl

theorem settleAligned_status_ne_uploading (f : UploadFile) (o : Option BatchOutcome) :
    (settleAligned f o).status ≠ .uploading := by
  unfold settleAligned
  cases o with
  | none => simp
  | some r => dsimp only; split <;> simp

theorem settleBatchFile_id (st : BatchSettle) (n i : Nat) (f : UploadFile) :
    (settleBatchFile st n i f).id = f.id := by
  unfold settleBatchFile
  cases st with
  | ok body =>
    dsimp only
    split
    · exact settleAligned_id _ _
    · rfl
  | aborted => rfl
  | timedOut => rfl
  | failed msg => rfl

theorem settleBatchFile_status_ne_uploading (st : BatchSettle) (n i : Nat) (f : UploadFile) :
    (settleBatchFile st n i f).status ≠ .uploading := by
  unfold settleBatchFile
  cases st with
  | ok body =>
    dsimp only
    split
    · exact settleAligned_status_ne_uploading _ _
    · simp
  | aborted => simp
  | timedOut => simp
  | failed msg => simp

/-- Mapping an id-preserving update over the queue leaves the id list
unchanged. -/
theorem map_ids_of_preserve (files : List UploadFile) (g : UploadFile → UploadFile)
    (h : ∀ f ∈ files, (g f).id = f.id) :
    (files.map g).map UploadFile.id = files.map UploadFile.id := by
  rw [List.map_map]
  exact List.map_congr_left (by simpa using h)

/-- A list of pairwise-distinct elements contained in another list is no
longer than it. -/
theorem nodup_subset_length_le {l act : List Nat} (hn : l.Nodup) (hs : ∀ a ∈ l, a ∈ act) :
    l.length ≤ act.length := by
  induction l generalizing act with
  | nil => simp
  | cons a t ih =>
    have ha : a ∈ act := hs a (by simp)
    have hn' : t.Nodup := hn.of_cons
    have hnotmem : a ∉ t := by
      intro hmem
      exact (List.nodup_cons.mp hn).1 hmem
    have hsub : ∀ b ∈ t, b ∈ act.erase a := by
      intro b hb
      have hne : b ≠ a := fun h => hnotmem (h ▸ hb)
      exact (List.mem_erase_of_ne hne).mpr (hs b (by simp [hb]))
    have hlen := ih hn' hsub
    rw [List.length_erase_of_mem ha] at hlen
    have hpos : 0 < act.length := List.length_pos_of_mem ha
    simp only [List.length_cons]
    omega

theorem batchIdx_eq_none_iff (ids : List Nat) (x : Nat) :
    batchIdx ids x = none ↔ x ∉ ids := by
  induction ids with
  | nil => simp [batchIdx]
  | cons i rest ih =>
    by_cases hx : x = i
    · simp [batchIdx, hx]
    · simp [batchIdx, hx, ih]

/-- `foldl (fun s f => s + f.progress) init` computes `init` plus the sum of
the progresses. -/
theorem foldl_progress_eq_sum (l : List UploadFile) :
    ∀ init : Nat, l.foldl (fun sum f => sum + f.progress) init
      = init + (l.map UploadFile.progress).sum := by
  induction l with
  | nil => simp
  | cons f t ih =>
    intro init
    simp only [List.foldl_cons, List.map_cons, List.sum_cons, ih]
    omega

/-! ## C6: the progress aggregator -/

/-- C6: for every queue, `getProgress` returns total count = number of
entries, completed count = number with status `success`, failed count =
number with status `error`, `isUploading` true iff some entry is
`uploading`, and aggregate progress
`round((100 * completed + sum of uploading entries' progress) / total)`;
on the empty queue it returns all-zero counts, progress `0` and
`isUploading = false`. -/
theorem getProgress_spec (files : List UploadFile) :
    (getProgress files).totalFiles = files.length ∧
    (getProgress files).completedFiles = files.countP (fun f => f.status = .success) ∧
    (getProgress files).failedFiles = files.countP (fun f => f.status = .error) ∧
    ((getProgress files).isUploading = true ↔ ∃ f ∈ files, f.status = .uploading) ∧
    (files.length ≠ 0 →
      (getProgress files).overallProgress =
        jsRoundDiv
          (100 * files.countP (fun f => f.status = .success)
            + ((files.filter fun f => f.status = .uploading).map UploadFile.progress).sum)
          files.length) ∧
    (files = [] → getProgress files = ⟨0, 0, 0, 0, false⟩) := by
  refine ⟨rfl, ?_, ?_, ?_, ?_, ?_⟩
  · simp [getProgress, List.countP_eq_length_filter]
  · simp [getProgress, List.countP_eq_length_filter]
  · simp only [getProgress, List.length_pos, decide_eq_true_eq]
    constructor
    · intro h
      rcases List.exists_mem_of_ne_nil _ h with ⟨f, hf⟩
      rcases List.mem_filter.mp hf with ⟨hmem, hst⟩
      exact ⟨f, hmem, of_decide_eq_true hst⟩
    · rintro ⟨f, hmem, hst⟩
      intro hnil
      have : f ∈ List.filter (fun f => decide (f.status = UploadStatus.uploading)) files :=
        List.mem_filter.mpr ⟨hmem, decide_eq_true hst⟩
      simp [hnil] at this
  · intro hne
    simp only [getProgress, List.countP_eq_length_filter]
    rw [if_pos (Nat.pos_of_ne_zero hne)]
    rw [foldl_progress_eq_sum]
    simp [Nat.mul_comm]
  · rintro rfl
    rfl

/-- Witness for C6 at a concrete three-entry queue. -/
def progressWitnessQueue : List UploadFile :=
  [markSuccess (mkUploadFile 0 ⟨"a.png", 4, "image/png"⟩) "https://cdn/a",
   { mkUploadFile 1 ⟨"b.png", 4, "image/png"⟩ with status := .uploading, progress := 40 },
   markError (mkUploadFile 2 ⟨"c.png", 4, "image/png"⟩) "boom"]

theorem getProgress_spec_witness :
    progressWitnessQueue.length ≠ 0 ∧
    (getProgress progressWitnessQueue).overallProgress =
      jsRoundDiv
        (100 * progressWitnessQueue.countP (fun f => f.status = .success)
          + ((progressWitnessQueue.filter fun f => f.status = .uploading).map
              UploadFile.progress).sum)
        progressWitnessQueue.length :=
  ⟨by decide, (getProgress_spec progressWitnessQueue).2.2.2.2.1 (by decide)⟩

/-! ## C8: ETA estimation -/

/-- C8: for an entry with a recorded start timestamp and progress > 0,
`eta = round((100 - progress) / (progress / elapsedSeconds))`; before the
first progress sample (progress = 0 or no start timestamp) `eta = 0`; and
the ETA is never negative (for entries with `progress ≤ 100` evaluated at a
time `now` not before the start timestamp). -/
theorem calculateETA_spec (f : UploadFile) (now : Nat) :
    (f.startTime = none → calculateETA now f = 0) ∧
    (f.progress = 0 → calculateETA now f = 0) ∧
    (∀ st, f.startTime = some st → 0 < f.progress →
      calculateETA now f =
        jsRound ((100 - (f.progress : ℚ)) /
          ((f.progress : ℚ) / (((now : ℚ) - (st : ℚ)) / 1000)))) ∧
    (∀ st, f.startTime = some st → st ≤ now → f.progress ≤ 100 →
      0 ≤ calculateETA now f) := by
  refine ⟨?_, ?_, ?_, ?_⟩
  · intro h
    simp [calculateETA, h]
  · intro h
    unfold calculateETA
    cases f.startTime <;> simp [h]
  · intro st hst hp
    unfold calculateETA
    rw [hst]
    dsimp only
    rw [if_neg (Nat.pos_iff_ne_zero.mp hp)]
  · intro st hst hnow hp100
    unfold calculateETA
    rw [hst]
    dsimp only
    by_cases hp : f.progress = 0
    · simp [hp]
    · rw [if_neg hp]
      have hprog : (0 : ℚ) ≤ (f.progress : ℚ) := by positivity
      have hprog100 : ((f.progress : ℚ)) ≤ 100 := by exact_mod_cast hp100
      have hstnow : ((st : ℚ)) ≤ (now : ℚ) := by exact_mod_cast hnow
      have hx : (0 : ℚ) ≤ (100 - (f.progress : ℚ)) /
          ((f.progress : ℚ) / (((now : ℚ) - (st : ℚ)) / 1000)) := by
        apply div_nonneg
        · linarith
        · apply div_nonneg hprog
          apply div_nonneg
          · linarith
          · norm_num
      unfold jsRound
      refine Int.le_floor.mpr ?_
      push_cast
      linarith

/-- Witness entry for C8: 50% progress, started at 1000ms, observed at
3000ms. -/
def etaWitnessFile : UploadFile :=
  { mkUploadFile 7 ⟨"w.png", 4, "image/png"⟩ with
      status := .uploading, progress := 50, startTime := some 1000 }

theorem calculateETA_spec_witness :
    etaWitnessFile.startTime = some 1000 ∧ 0 < etaWitnessFile.progress ∧
    (1000 ≤ 3000 ∧ etaWitnessFile.progress ≤ 100) ∧
    calculateETA 3000 etaWitnessFile =
      jsRound ((100 - (etaWitnessFile.progress : ℚ)) /
        ((etaWitnessFile.progress : ℚ) / (((3000 : ℚ) - (1000 : ℚ)) / 1000))) ∧
    0 ≤ calculateETA 3000 etaWitnessFile :=
  ⟨rfl, by decide, ⟨by decide, by decide⟩,
    by
      have h := (calculateETA_spec etaWitnessFile 3000).2.2.1 1000 rfl (by decide)
      simpa using h,
    (calculateETA_spec etaWitnessFile 3000).2.2.2 1000 rfl (by decide) (by decide)⟩

/-! ## C5: admission capacity -/

/-- The entries `addFiles` builds for consecutively accepted candidates,
with ids drawn from the fresh counter. -/
def buildEntries : Nat → List JSFile → List UploadFile
  | _, [] => []
  | nid, c :: cs => mkUploadFile nid c :: buildEntries (nid + 1) cs

theorem buildEntries_length (nid : Nat) (cs : List JSFile) :
    (buildEntries nid cs).length = cs.length := by
  induction cs generalizing nid with
  | nil => rfl
  | cons c cs ih => simp [buildEntries, ih]

/-- Closed form of the `addFiles` loop when every candidate passes
validation: the first `maxFiles - (qLen + k)` candidates are accepted and
every further one is rejected with the queue-full message. -/
theorem addFilesGo_all_valid (cfg : UploadManagerConfig) (qLen : Nat) :
    ∀ (cands : List JSFile) (k nid : Nat),
      (∀ c ∈ cands, validateFile cfg c = none) →
      addFilesGo cfg qLen k nid cands =
        (buildEntries nid (cands.take (cfg.maxFiles - (qLen + k))),
         List.replicate (cands.length - (cfg.maxFiles - (qLen + k))) (maxFilesMsg cfg)) := by
  intro cands
  induction cands with
  | nil => intro k nid _; simp [addFilesGo, buildEntries]
  | cons c cs ih =>
    intro k nid hv
    have hvc : validateFile cfg c = none := hv c (by simp)
    have hvs : ∀ x ∈ cs, validateFile cfg x = none := fun x hx => hv x (by simp [hx])
    by_cases hcap : qLen + k ≥ cfg.maxFiles
    · have hz : cfg.maxFiles - (qLen + k) = 0 := by omega
      rw [addFilesGo, if_pos hcap, ih k nid hvs]
      simp [hz, buildEntries, List.replicate_succ]
    · have hpos : qLen + k < cfg.maxFiles := by omega
      rw [addFilesGo, if_neg hcap, hvc, ih (k + 1) (nid + 1) hvs]
      have hsucc : cfg.maxFiles - (qLen + k) = (cfg.maxFiles - (qLen + (k + 1))) + 1 := by
        omega
      have hrep : cs.length + 1 - (cfg.maxFiles - (qLen + k))
          = cs.length - (cfg.maxFiles - (qLen + (k + 1))) := by
        omega
      simp [hsucc, hrep, buildEntries, List.take_succ_cons]

/-- C5: when admitting otherwise-valid candidates would exceed `maxFiles`,
`addFiles` accepts exactly `maxFiles - currentQueueLength` of them (clamped
at 0), appends exactly those first candidates in order, and rejects each
excess candidate with the queue-full message; rejected candidates are never
appended. -/
theorem addFiles_capacity (cfg : UploadManagerConfig) (q : List UploadFile)
    (nid : Nat) (cands : List JSFile)
    (hvalid : ∀ c ∈ cands, validateFile cfg c = none)
    (hexceed : cfg.maxFiles < q.length + cands.length) :
    (addFiles cfg q nid cands).added = cfg.maxFiles - q.length ∧
    (addFiles cfg q nid cands).files =
      q ++ buildEntries nid (cands.take (cfg.maxFiles - q.length)) ∧
    (addFiles cfg q nid cands).errors =
      List.replicate (cands.length - (cfg.maxFiles - q.length)) (maxFilesMsg cfg) := by
  have h := addFilesGo_all_valid cfg q.length cands 0 nid hvalid
  rw [Nat.add_zero] at h
  refine ⟨?_, ?_, ?_⟩
  · show (addFilesGo cfg q.length 0 nid cands).1.length = _
    rw [h]
    dsimp only
    rw [buildEntries_length, List.length_take]
    omega
  · show q ++ (addFilesGo cfg q.length 0 nid cands).1 = _
    rw [h]
  · show (addFilesGo cfg q.length 0 nid cands).2 = _
    rw [h]

/-- Witness configuration for C5: room for one more file. -/
def capacityWitnessCfg : UploadManagerConfig :=
  { defaultConfig with maxFiles := 2 }

def capacityWitnessQueue : List UploadFile := [mkUploadFile 0 ⟨"old.png", 4, "image/png"⟩]

def capacityWitnessCands : List JSFile := [⟨"a.png", 4, "image/png"⟩, ⟨"b.png", 4, "image/png"⟩]

theorem addFiles_capacity_witness :
    (∀ c ∈ capacityWitnessCands, validateFile capacityWitnessCfg c = none) ∧
    capacityWitnessCfg.maxFiles <
      capacityWitnessQueue.length + capacityWitnessCands.length ∧
    (addFiles capacityWitnessCfg capacityWitnessQueue 1 capacityWitnessCands).added = 1 ∧
    (addFiles capacityWitnessCfg capacityWitnessQueue 1 capacityWitnessCands).errors =
      [maxFilesMsg capacityWitnessCfg] :=
  ⟨by decide, by decide,
    (addFiles_capacity capacityWitnessCfg capacityWitnessQueue 1 capacityWitnessCands
      (by decide) (by decide)).1,
    by
      have h := (addFiles_capacity capacityWitnessCfg capacityWitnessQueue 1
        capacityWitnessCands (by decide) (by decide)).2.2
      simpa using h⟩

/-! ## C10: retry resets in place and never aborts -/

/-- With pairwise-distinct ids, replacing the entry found for `id` by the
reset of the found entry is the same as resetting each matching entry in
place. -/
theorem retry_map_reset (id : Nat) (f : UploadFile) :
    ∀ (files : List UploadFile), (files.map UploadFile.id).Nodup →
      files.find? (fun g => g.id = id) = some f →
      files.map (fun g => if g.id = id then resetFileOf f else g) =
        files.map (fun g => if g.id = id then resetFileOf g else g) := by
  intro files
  induction files with
  | nil => intro _ hfind; simp at hfind
  | cons h t ih =>
    intro hnodup hfind
    have hcons : h.id ∉ t.map UploadFile.id ∧ (t.map UploadFile.id).Nodup :=
      List.nodup_cons.mp hnodup
    have hnodup' : (t.map UploadFile.id).Nodup := hcons.2
    by_cases hid : h.id = id
    · have hf : f = h := by
        rw [List.find?_cons_of_pos _ (by simp [hid])] at hfind
        exact (Option.some_inj.mp hfind).symm
      have hnotin : id ∉ t.map UploadFile.id := hid ▸ hcons.1
      have htail : ∀ g ∈ t, g.id ≠ id := by
        intro g hg hgid
        exact hnotin (hgid ▸ List.mem_map_of_mem UploadFile.id hg)
      simp only [List.map_cons, hid, if_pos rfl, hf]
      congr 1
      apply List.map_congr_left
      intro g hg
      simp [htail g hg]
    · rw [List.find?_cons_of_neg _ (by simp [hid])] at hfind
      simp only [List.map_cons, if_neg hid]
      congr 1
      exact ih hnodup' hfind

/-- C10: `retryFile id` rewrites the queue in place, resetting exactly the
entry with that id to `pending` with progress 0, eta 0, and cleared error,
cancellation handle and start timestamp, leaving every other entry
unchanged; and it never aborts the entry's cancellation handle — unlike
`removeFile`, which aborts a live (`uploading`, handle present) transfer. -/
theorem retryFile_spec (files : List UploadFile) (id : Nat) (f : UploadFile)
    (hnodup : (files.map UploadFile.id).Nodup)
    (hfind : files.find? (fun g => g.id = id) = some f) :
    (retryFile files id).2 = [] ∧
    (retryFile files id).1 =
      files.map (fun g => if g.id = id then resetFileOf g else g) ∧
    (∀ g : UploadFile, resetFileOf g =
      { g with status := .pending, progress := 0, eta := 0, error := none,
               hasAbort := false, startTime := none }) ∧
    (f.status = .uploading → f.hasAbort = true → (removeFile files id).2 = [id]) := by
  refine ⟨?_, ?_, fun g => rfl, ?_⟩
  · unfold retryFile
    rw [hfind]
  · unfold retryFile
    rw [hfind]
    exact retry_map_reset id f files hnodup hfind
  · intro hup hab
    unfold removeFile
    rw [hfind]
    simp [hup, hab]

def retryWitnessFiles : List UploadFile :=
  [{ mkUploadFile 0 ⟨"a.png", 4, "image/png"⟩ with
       status := .uploading, progress := 30, hasAbort := true, startTime := some 10 },
   mkUploadFile 1 ⟨"b.png", 4, "image/png"⟩]

def retryWitnessFound : UploadFile :=
  { mkUploadFile 0 ⟨"a.png", 4, "image/png"⟩ with
      status := .uploading, progress := 30, hasAbort := true, startTime := some 10 }

theorem retryFile_spec_witness :
    (retryWitnessFiles.map UploadFile.id).Nodup ∧
    retryWitnessFiles.find? (fun g => g.id = 0) = some retryWitnessFound ∧
    (retryFile retryWitnessFiles 0).2 = [] ∧
    (removeFile retryWitnessFiles 0).2 = [0] := by
  have h := retryFile_spec retryWitnessFiles 0 retryWitnessFound (by decide) (by decide)
  exact ⟨by decide, by decide, h.1, h.2.2.2 (by decide) (by decide)⟩

/-! ## C9: rejection reasons -/

/-- `msg` names the file called `name`: the name occurs verbatim inside the
message. -/
def mentionsName (msg name : String) : Prop :=
  name.data <:+: msg.data

instance (msg name : String) : Decidable (mentionsName msg name) :=
  List.decidableInfix _ _

theorem mentionsName_append_right (a b : String) : mentionsName (a ++ b) a :=
  ⟨[], b.data, by simp⟩

/-- Counterexample configuration/queue for C9: the queue is already at
`maxFiles = 1`. -/
def fullQueueCfg : UploadManagerConfig := { defaultConfig with maxFiles := 1 }

def fullQueue : List UploadFile := [mkUploadFile 0 ⟨"first.png", 10, "image/png"⟩]

def fullQueueCandidate : JSFile := ⟨"photo.png", 10, "image/png"⟩

/-- C9 is false as stated: a candidate rejected because the queue is full
gets the message `Maximum 1 files allowed`, which does not name the
offending file `photo.png`. -/
theorem addFiles_queue_full_message_counterexample :
    (addFiles fullQueueCfg fullQueue 1 [fullQueueCandidate]).errors =
      ["Maximum 1 files allowed"] ∧
    (addFiles fullQueueCfg fullQueue 1 [fullQueueCandidate]).added = 0 ∧
    ¬ mentionsName "Maximum 1 files allowed" "photo.png" :=
  ⟨by decide, by decide, by decide⟩

/-- Closed form of the loop's rejection list: one message per rejected
candidate, each either the queue-full message or `${file.name}: ${reason}`. -/
theorem addFilesGo_errors_spec (cfg : UploadManagerConfig) (qLen : Nat) :
    ∀ (cands : List JSFile) (k nid : Nat),
      (addFilesGo cfg qLen k nid cands).2.length
          + (addFilesGo cfg qLen k nid cands).1.length = cands.length ∧
      ∀ e ∈ (addFilesGo cfg qLen k nid cands).2,
        e = maxFilesMsg cfg ∨ ∃ c ∈ cands, ∃ v, e = c.name ++ ": " ++ v := by
  intro cands
  induction cands with
  | nil => intro k nid; simp [addFilesGo]
  | cons c cs ih =>
    intro k nid
    by_cases hcap : qLen + k ≥ cfg.maxFiles
    · rcases hgo : addFilesGo cfg qLen k nid cs with ⟨nfs, errs⟩
      have ihs := ih k nid
      rw [hgo] at ihs
      rw [addFilesGo, if_pos hcap, hgo]
      dsimp only at ihs ⊢
      refine ⟨by simp only [List.length_cons]; omega, ?_⟩
      intro e he
      rcases List.mem_cons.mp he with rfl | hmem
      · exact Or.inl rfl
      · rcases ihs.2 e hmem with h | ⟨x, hx, v, hv⟩
        · exact Or.inl h
        · exact Or.inr ⟨x, List.mem_cons_of_mem _ hx, v, hv⟩
    · rw [addFilesGo, if_neg hcap]
      cases hval : validateFile cfg c with
      | some msg =>
        rcases hgo : addFilesGo cfg qLen k nid cs with ⟨nfs, errs⟩
        have ihs := ih k nid
        rw [hgo] at ihs
        dsimp only at ihs ⊢
        refine ⟨by simp only [List.length_cons]; omega, ?_⟩
        intro e he
        rcases List.mem_cons.mp he with rfl | hmem
        · exact Or.inr ⟨c, by simp, msg, rfl⟩
        · rcases ihs.2 e hmem with h | ⟨x, hx, v, hv⟩
          · exact Or.inl h
          · exact Or.inr ⟨x, List.mem_cons_of_mem _ hx, v, hv⟩
      | none =>
        rcases hgo : addFilesGo cfg qLen (k + 1) (nid + 1) cs with ⟨nfs, errs⟩
        have ihs := ih (k + 1) (nid + 1)
        rw [hgo] at ihs
        dsimp only at ihs ⊢
        refine ⟨by simp; omega, ?_⟩
        intro e he
        rcases ihs.2 e he with h | ⟨x, hx, v, hv⟩
        · exact Or.inl h
        · exact Or.inr ⟨x, List.mem_cons_of_mem _ hx, v, hv⟩

/-- C9 amended: `addFiles` returns exactly one rejection reason per
rejected candidate; a reason produced by `validateFile` (disallowed media
type or oversize) has the shape `${file.name}: ${message}` and names the
offending file, while a queue-full rejection carries only the configured
limit and does not name the candidate. -/
theorem addFiles_rejections_spec (cfg : UploadManagerConfig) (q : List UploadFile)
    (nid : Nat) (cands : List JSFile) :
    (addFiles cfg q nid cands).errors.length + (addFiles cfg q nid cands).added
      = cands.length ∧
    ∀ e ∈ (addFiles cfg q nid cands).errors,
      e = maxFilesMsg cfg ∨
      ∃ c ∈ cands, ∃ v, e = c.name ++ ": " ++ v ∧ mentionsName e c.name := by
  have h := addFilesGo_errors_spec cfg q.length cands 0 nid
  refine ⟨h.1, ?_⟩
  intro e he
  rcases h.2 e he with hmax | ⟨c, hc, v, hv⟩
  · exact Or.inl hmax
  · refine Or.inr ⟨c, hc, v, hv, ?_⟩
    have hassoc : c.name ++ ": " ++ v = c.name ++ (": " ++ v) := String.append_assoc _ _ _
    rw [hv, hassoc]
    exact mentionsName_append_right c.name (": " ++ v)

def rejectionWitnessCandidate : JSFile := ⟨"doc.pdf", 10, "application/pdf"⟩

theorem addFiles_rejections_spec_witness :
    (addFiles defaultConfig [] 0 [rejectionWitnessCandidate]).errors.length
        + (addFiles defaultConfig [] 0 [rejectionWitnessCandidate]).added = 1 ∧
    ((addFiles defaultConfig [] 0 [rejectionWitnessCandidate]).errors.headD ""
        = maxFilesMsg defaultConfig ∨
      ∃ c ∈ [rejectionWitnessCandidate], ∃ v,
        (addFiles defaultConfig [] 0 [rejectionWitnessCandidate]).errors.headD ""
            = c.name ++ ": " ++ v ∧
        mentionsName ((addFiles defaultConfig [] 0 [rejectionWitnessCandidate]).errors.headD "")
          c.name) :=
  ⟨(addFiles_rejections_spec defaultConfig [] 0 [rejectionWitnessCandidate]).1,
    (addFiles_rejections_spec defaultConfig [] 0 [rejectionWitnessCandidate]).2 _
      (by decide)⟩

/-! ## C4: batch response mapping -/

def absentFlagOutcome : BatchOutcome := { url := some "https://cdn/a.png" }

def absentFlagFile : UploadFile := mkUploadFile 0 ⟨"a.png", 4, "image/png"⟩

/-- C4 is false as stated: a response element whose `success` flag is
*absent* is mapped to `success` (the code tests `result.success !== false`),
not to `error`. -/
theorem uploadBatch_absent_flag_counterexample :
    absentFlagOutcome.success = none ∧
    (settleAligned absentFlagFile (some absentFlagOutcome)).status = .success ∧
    ¬ (settleAligned absentFlagFile (some absentFlagOutcome)).status = .error :=
  ⟨rfl, by decide, by decide⟩

/-- C4 amended: in the aligned batch response branch, entry `i` is marked
`error` (with the outcome's error message, or `Upload failed`) exactly when
response element `i` is null/absent or its `success` flag is literally
`false`; in every other case it is marked `success` with the resolved
location (first of the `url` field, the `file_url` field, or the locally
synthesized placeholder).  In particular three entries whose outcomes have
success flags `[≠false, false, ≠false]` end `[success, error, success]`
with `ProgressSummary.failedFiles = 1`. -/
theorem uploadBatch_outcome_mapping :
    (∀ f : UploadFile, settleAligned f none = markError f "Upload failed") ∧
    (∀ (f : UploadFile) (r : BatchOutcome), r.success = some false →
      settleAligned f (some r) = markError f (r.error.getD "Upload failed")) ∧
    (∀ (f : UploadFile) (r : BatchOutcome), r.success ≠ some false →
      settleAligned f (some r) = markSuccess f (resolvedUrl r f)) ∧
    (∀ (f : UploadFile) (o : Option BatchOutcome),
      (settleAligned f o).status = .error ↔
        o = none ∨ ∃ r, o = some r ∧ r.success = some false) ∧
    (∀ (f1 f2 f3 : UploadFile) (r1 r2 r3 : BatchOutcome),
      r1.success ≠ some false → r2.success = some false → r3.success ≠ some false →
      (applyAligned [f1, f2, f3] [some r1, some r2, some r3]).map UploadFile.status
          = [.success, .error, .success] ∧
      (getProgress (applyAligned [f1, f2, f3] [some r1, some r2, some r3])).failedFiles
          = 1) := by
  have hnone : ∀ f : UploadFile, settleAligned f none = markError f "Upload failed" :=
    fun f => rfl
  have hfalse : ∀ (f : UploadFile) (r : BatchOutcome), r.success = some false →
      settleAligned f (some r) = markError f (r.error.getD "Upload failed") := by
    intro f r h
    unfold settleAligned
    simp [h]
  have hok : ∀ (f : UploadFile) (r : BatchOutcome), r.success ≠ some false →
      settleAligned f (some r) = markSuccess f (resolvedUrl r f) := by
    intro f r h
    unfold settleAligned
    simp [h]
  refine ⟨hnone, hfalse, hok, ?_, ?_⟩
  · intro f o
    cases o with
    | none => simp [hnone]
    | some r =>
      by_cases h : r.success = some false
      · simp [hfalse f r h, h]
      · simp [hok f r h, h]
  · intro f1 f2 f3 r1 r2 r3 h1 h2 h3
    have happ : applyAligned [f1, f2, f3] [some r1, some r2, some r3]
        = [markSuccess f1 (resolvedUrl r1 f1), markError f2 (r2.error.getD "Upload failed"),
           markSuccess f3 (resolvedUrl r3 f3)] := by
      simp [applyAligned, List.mapIdx_cons, List.mapIdx_nil, List.getD,
        hok f1 r1 h1, hfalse f2 r2 h2, hok f3 r3 h3]
    rw [happ]
    constructor
    · simp
    · simp [getProgress]

def outcomeWitnessFile1 : UploadFile := mkUploadFile 0 ⟨"a.png", 4, "image/png"⟩
def outcomeWitnessFile2 : UploadFile := mkUploadFile 1 ⟨"b.png", 4, "image/png"⟩
def outcomeWitnessFile3 : UploadFile := mkUploadFile 2 ⟨"c.png", 4, "image/png"⟩

def outcomeWitness1 : BatchOutcome := { success := some true, url := some "https://cdn/1" }
def outcomeWitness2 : BatchOutcome := { success := some false, error := some "disk full" }
def outcomeWitness3 : BatchOutcome := { success := some true, url := some "https://cdn/3" }

theorem uploadBatch_outcome_mapping_witness :
    outcomeWitness1.success ≠ some false ∧ outcomeWitness2.success = some false ∧
    outcomeWitness3.success ≠ some false ∧
    (applyAligned [outcomeWitnessFile1, outcomeWitnessFile2, outcomeWitnessFile3]
        [some outcomeWitness1, some outcomeWitness2, some outcomeWitness3]).map
        UploadFile.status = [.success, .error, .success] ∧
    (getProgress (applyAligned [outcomeWitnessFile1, outcomeWitnessFile2, outcomeWitnessFile3]
        [some outcomeWitness1, some outcomeWitness2, some outcomeWitness3])).failedFiles = 1 := by
  have h := uploadBatch_outcome_mapping.2.2.2.2 outcomeWitnessFile1 outcomeWitnessFile2
    outcomeWitnessFile3 outcomeWitness1 outcomeWitness2 outcomeWitness3
    (by decide) (by decide) (by decide)
  exact ⟨by decide, by decide, by decide, h.1, h.2⟩

/-! ## C1: admission auto-starts the upload -/

def validCandidate : JSFile := ⟨"a.png", 4, "image/png"⟩

/-- C1 is false as stated: one `addFiles` call with a single valid
candidate, followed only by the automatic effect flush, already issues one
Transfer Unit invocation although the caller never invoked
`startBatchUpload`. -/
theorem addFiles_auto_start_counterexample :
    (addFilesStep defaultConfig 0 initManagerState [validCandidate]).invocations = 1 ∧
    (addFilesStep defaultConfig 0 initManagerState [validCandidate]).callerStarts = 0 :=
  ⟨by decide, by decide⟩

theorem pendingCount_pos_iff_any (files : List UploadFile) :
    0 < pendingCount files ↔ (files.any fun f => f.status = .pending) = true := by
  unfold pendingCount
  rw [List.length_pos]
  constructor
  · intro h
    rcases List.exists_mem_of_ne_nil _ h with ⟨f, hf⟩
    rcases List.mem_filter.mp hf with ⟨hmem, hst⟩
    exact List.any_eq_true.mpr ⟨f, hmem, hst⟩
  · intro h
    rcases List.any_eq_true.mp h with ⟨f, hmem, hst⟩
    intro hnil
    have : f ∈ files.filter fun f => decide (f.status = UploadStatus.pending) :=
      List.mem_filter.mpr ⟨hmem, hst⟩
    simp [hnil] at this
  
/-- C1 amended: the synchronous part of `addFiles` performs no Transfer
Unit invocation itself (and no caller start), but it arms the one-shot
auto-upload flag; the reactive effect then invokes `startBatchUpload`
automatically — one POST per pending file — with no caller invocation
recorded.  So transfers do start after mere admission. -/
theorem addFiles_stages_then_effect_auto_starts (cfg : UploadManagerConfig)
    (s : ManagerState) (cands : List JSFile) (now : Nat) :
    (addFilesRaw cfg s cands).1.invocations = s.invocations ∧
    (addFilesRaw cfg s cands).1.callerStarts = s.callerStarts ∧
    (s.autoUpload = true → 0 < pendingCount s.files →
      (autoUploadEffect now s).invocations = s.invocations + pendingCount s.files ∧
      (autoUploadEffect now s).callerStarts = s.callerStarts) := by
  refine ⟨rfl, rfl, ?_⟩
  intro hauto hpend
  have hany := (pendingCount_pos_iff_any s.files).mp hpend
  unfold autoUploadEffect
  rw [if_pos ⟨hauto, hany⟩]
  unfold startBatchUpload
  rw [if_neg (by simpa [pendingCount] using Nat.pos_iff_ne_zero.mp hpend)]
  exact ⟨rfl, rfl⟩

/-- One admitted file staged and the flag armed, before the effect runs. -/
def stagedState : ManagerState :=
  (addFilesRaw defaultConfig initManagerState [validCandidate]).1

theorem addFiles_stages_then_effect_auto_starts_witness :
    stagedState.autoUpload = true ∧ 0 < pendingCount stagedState.files ∧
    (autoUploadEffect 0 stagedState).invocations
        = stagedState.invocations + pendingCount stagedState.files ∧
    (autoUploadEffect 0 stagedState).callerStarts = stagedState.callerStarts :=
  ⟨by decide, by decide,
    ((addFiles_stages_then_effect_auto_starts defaultConfig stagedState [] 0).2.2
      (by decide) (by decide)).1,
    ((addFiles_stages_then_effect_auto_starts defaultConfig stagedState [] 0).2.2
      (by decide) (by decide)).2⟩

/-! ## C3: counterexample on the newer revision -/

def threePendingState : ManagerState where
  files := [mkUploadFile 0 ⟨"a.png", 4, "image/png"⟩,
            mkUploadFile 1 ⟨"b.png", 4, "image/png"⟩,
            mkUploadFile 2 ⟨"c.png", 4, "image/png"⟩]
  nextId := 3
  autoUpload := false
  invocations := 0
  callerStarts := 0

/-- C3 is false as stated against the newer revision: with
`enableBatching = true` and `batchSize = 5` configured, one explicit
`startBatchUpload` on 3 pending entries issues **3** Transfer Unit
invocations (one POST per file — the drain never consults the batching
configuration), not one request carrying all 3 payloads. -/
theorem startBatchUpload_three_posts_counterexample :
    defaultConfig.enableBatching = true ∧ defaultConfig.batchSize = 5 ∧
    pendingCount threePendingState.files = 3 ∧
    (callerStart 0 threePendingState).callerStarts = 1 ∧
    (callerStart 0 threePendingState).invocations = 3 ∧
    ¬ (callerStart 0 threePendingState).invocations = 1 :=
  ⟨rfl, rfl, by decide, by decide, by decide, by decide⟩

/-! ## C3 amended: the batching scheduler batches once, then re-uploads -/

/-- C3 amended, on the older revision's batching engine: with
`batchingEnabled = true`, `maxBatchSize = 5`, `maxConcurrentTransfers = 3`,
one `processQueue` pass over a freshly staged queue of exactly 3 pending
entries issues exactly one Transfer Unit invocation packing all 3 payloads,
and the structured 3-element all-`success:true` response marks all 3
entries `status = success` with their respective resolved locations.  But
the settlement is not the end: the `finally`-block `processQueue` re-pass
selects from `uploadQueueRef`, whose entries never received a status
update, so it immediately re-batches the same 3 files — a second,
identical Transfer Unit invocation goes out and the entries are re-marked
`uploading` (the reactive re-upload loop the repository's fix notes
document). -/
theorem processQueue_batches_then_reuploads (cfg : UploadManagerConfig)
    (hb : cfg.enableBatching = true) (hbs : cfg.batchSize = 5) (hc : cfg.concurrency = 3)
    (f1 f2 f3 : UploadFile) (u1 u2 u3 : String) (now : Nat)
    (h1 : f1.status = .pending) (h2 : f2.status = .pending) (h3 : f3.status = .pending)
    (h12 : f1.id ≠ f2.id) (h13 : f1.id ≠ f3.id) (h23 : f2.id ≠ f3.id) :
    processQueue cfg now ⟨[f1, f2, f3], [f1, f2, f3], [], [], []⟩ =
      ⟨[markUploading now f1, markUploading now f2, markUploading now f3],
       [f1, f2, f3],
       [f1.id, f2.id, f3.id], [[f1.id, f2.id, f3.id]], [[f1, f2, f3]]⟩ ∧
    ([markUploading now f1, markUploading now f2, markUploading now f3].map fun f =>
        match batchIdx [f1.id, f2.id, f3.id] f.id with
        | some i => settleBatchFile
            (.ok { results := some [some { success := some true, url := some u1 },
                                    some { success := some true, url := some u2 },
                                    some { success := some true, url := some u3 }] })
            ([f1.id, f2.id, f3.id] : List Nat).length i f
        | none => f) =
      [markSuccess (markUploading now f1) u1, markSuccess (markUploading now f2) u2,
       markSuccess (markUploading now f3) u3] ∧
    settleUnit cfg now
        (processQueue cfg now ⟨[f1, f2, f3], [f1, f2, f3], [], [], []⟩)
        [f1.id, f2.id, f3.id]
        (.ok { results := some [some { success := some true, url := some u1 },
                                some { success := some true, url := some u2 },
                                some { success := some true, url := some u3 }] }) =
      ⟨[markUploading now (markSuccess (markUploading now f1) u1),
        markUploading now (markSuccess (markUploading now f2) u2),
        markUploading now (markSuccess (markUploading now f3) u3)],
       [f1, f2, f3],
       [f1.id, f2.id, f3.id], [[f1.id, f2.id, f3.id]],
       [[f1, f2, f3], [f1, f2, f3]]⟩ := by
  have h21 : f2.id ≠ f1.id := Ne.symm h12
  have h31 : f3.id ≠ f1.id := Ne.symm h13
  have h32 : f3.id ≠ f2.id := Ne.symm h23
  have hs1 : processQueue cfg now ⟨[f1, f2, f3], [f1, f2, f3], [], [], []⟩ =
      ⟨[markUploading now f1, markUploading now f2, markUploading now f3],
       [f1, f2, f3],
       [f1.id, f2.id, f3.id], [[f1.id, f2.id, f3.id]], [[f1, f2, f3]]⟩ := by
    unfold processQueue pendingNotActive
    simp [hb, hbs, hc, h1, h2, h3]
  have hsettled :
      ([markUploading now f1, markUploading now f2, markUploading now f3].map fun f =>
        match batchIdx [f1.id, f2.id, f3.id] f.id with
        | some i => settleBatchFile
            (.ok { results := some [some { success := some true, url := some u1 },
                                    some { success := some true, url := some u2 },
                                    some { success := some true, url := some u3 }] })
            ([f1.id, f2.id, f3.id] : List Nat).length i f
        | none => f) =
      [markSuccess (markUploading now f1) u1, markSuccess (markUploading now f2) u2,
       markSuccess (markUploading now f3) u3] := by
    simp only [List.map_cons, List.map_nil, markUploading_id]
    rw [show batchIdx [f1.id, f2.id, f3.id] f1.id = some 0 by simp [batchIdx]]
    rw [show batchIdx [f1.id, f2.id, f3.id] f2.id = some 1 by simp [batchIdx, h21]]
    rw [show batchIdx [f1.id, f2.id, f3.id] f3.id = some 2 by simp [batchIdx, h31, h32]]
    simp [settleBatchFile, settleAligned, resolvedUrl]
  refine ⟨hs1, hsettled, ?_⟩
  rw [hs1]
  unfold settleUnit
  dsimp only
  rw [hsettled]
  have hactive : ([f1.id, f2.id, f3.id].filter fun a => a ∉ ([f1.id, f2.id, f3.id] : List Nat))
      = [] := by
    simp
  have herase : ([[f1.id, f2.id, f3.id]] : List (List Nat)).erase [f1.id, f2.id, f3.id] = [] := by
    simp
  rw [hactive, herase]
  unfold processQueue pendingNotActive
  simp [hb, hbs, hc, h1, h2, h3]

def roundTripF1 : UploadFile := mkUploadFile 0 ⟨"a.png", 4, "image/png"⟩
def roundTripF2 : UploadFile := mkUploadFile 1 ⟨"b.png", 4, "image/png"⟩
def roundTripF3 : UploadFile := mkUploadFile 2 ⟨"c.png", 4, "image/png"⟩

theorem processQueue_batches_then_reuploads_witness :
    processQueue defaultConfig 0
        ⟨[roundTripF1, roundTripF2, roundTripF3], [roundTripF1, roundTripF2, roundTripF3],
         [], [], []⟩ =
      ⟨[markUploading 0 roundTripF1, markUploading 0 roundTripF2, markUploading 0 roundTripF3],
       [roundTripF1, roundTripF2, roundTripF3],
       [roundTripF1.id, roundTripF2.id, roundTripF3.id],
       [[roundTripF1.id, roundTripF2.id, roundTripF3.id]],
       [[roundTripF1, roundTripF2, roundTripF3]]⟩ ∧
    ([markUploading 0 roundTripF1, markUploading 0 roundTripF2,
        markUploading 0 roundTripF3].map fun f =>
        match batchIdx [roundTripF1.id, roundTripF2.id, roundTripF3.id] f.id with
        | some i => settleBatchFile
            (.ok { results :=
                some [some { success := some true, url := some "https://cdn/1" },
                      some { success := some true, url := some "https://cdn/2" },
                      some { success := some true, url := some "https://cdn/3" }] })
            ([roundTripF1.id, roundTripF2.id, roundTripF3.id] : List Nat).length i f
        | none => f) =
      [markSuccess (markUploading 0 roundTripF1) "https://cdn/1",
       markSuccess (markUploading 0 roundTripF2) "https://cdn/2",
       markSuccess (markUploading 0 roundTripF3) "https://cdn/3"] ∧
    settleUnit defaultConfig 0
        (processQueue defaultConfig 0
          ⟨[roundTripF1, roundTripF2, roundTripF3], [roundTripF1, roundTripF2, roundTripF3],
           [], [], []⟩)
        [roundTripF1.id, roundTripF2.id, roundTripF3.id]
        (.ok { results := some [some { success := some true, url := some "https://cdn/1" },
                                some { success := some true, url := some "https://cdn/2" },
                                some { success := some true, url := some "https://cdn/3" }] }) =
      ⟨[markUploading 0 (markSuccess (markUploading 0 roundTripF1) "https://cdn/1"),
        markUploading 0 (markSuccess (markUploading 0 roundTripF2) "https://cdn/2"),
        markUploading 0 (markSuccess (markUploading 0 roundTripF3) "https://cdn/3")],
       [roundTripF1, roundTripF2, roundTripF3],
       [roundTripF1.id, roundTripF2.id, roundTripF3.id],
       [[roundTripF1.id, roundTripF2.id, roundTripF3.id]],
       [[roundTripF1, roundTripF2, roundTripF3], [roundTripF1, roundTripF2, roundTripF3]]⟩ :=
  processQueue_batches_then_reuploads defaultConfig rfl rfl rfl
    roundTripF1 roundTripF2 roundTripF3 "https://cdn/1" "https://cdn/2" "https://cdn/3" 0
    rfl rfl rfl (by decide) (by decide) (by decide)

/-! ## C7: success status vs. recorded location -/

/-- The events of one upload-retry round: admit one file, claim it, settle
it successfully, then retry it. -/
def retryRoundEvents : List ManagerEvent :=
  [.admitFiles [⟨"a.png", 4, "image/png"⟩],
   .claim 0 5,
   .settleSuccess 0 (some "https://cdn/a.png") none,
   .retry 0]

/-- The state after the upload-retry round. -/
def retryRoundState : List UploadFile × Nat :=
  retryRoundEvents.foldl (managerStep defaultConfig) ([], 0)

/-- C7 is false as stated: after a successful upload is retried, the entry
is back at `pending` but still carries the previously recorded
`uploadedUrl` (neither `retryFile` nor the `uploading` transition clears
it), so `status = success ↔ resultLocation present` fails in a reachable
state. -/
theorem retry_keeps_uploadedUrl_counterexample :
    ManagerReachable defaultConfig retryRoundState ∧
    retryRoundState.1.map UploadFile.status = [.pending] ∧
    retryRoundState.1.map UploadFile.uploadedUrl = [some "https://cdn/a.png"] := by
  refine ⟨?_, by decide, by decide⟩
  exact (((ManagerReachable.init.step (.admitFiles [⟨"a.png", 4, "image/png"⟩])).step
    (.claim 0 5)).step (.settleSuccess 0 (some "https://cdn/a.png") none)).step (.retry 0)

/-- Entries produced by the admission loop are all `pending`. -/
theorem addFilesGo_entries_pending (cfg : UploadManagerConfig) (qLen : Nat) :
    ∀ (cands : List JSFile) (k nid : Nat),
      ∀ f ∈ (addFilesGo cfg qLen k nid cands).1, f.status = .pending := by
  intro cands
  induction cands with
  | nil => intro k nid f hf; simp [addFilesGo] at hf
  | cons c cs ih =>
    intro k nid f hf
    by_cases hcap : qLen + k ≥ cfg.maxFiles
    · rcases hgo : addFilesGo cfg qLen k nid cs with ⟨nfs, errs⟩
      rw [addFilesGo, if_pos hcap, hgo] at hf
      have := ih k nid
      rw [hgo] at this
      exact this f hf
    · rw [addFilesGo, if_neg hcap] at hf
      cases hval : validateFile cfg c with
      | some msg =>
        rw [hval] at hf
        rcases hgo : addFilesGo cfg qLen k nid cs with ⟨nfs, errs⟩
        rw [hgo] at hf
        have := ih k nid
        rw [hgo] at this
        exact this f hf
      | none =>
        rw [hval] at hf
        rcases hgo : addFilesGo cfg qLen (k + 1) (nid + 1) cs with ⟨nfs, errs⟩
        rw [hgo] at hf
        rcases List.mem_cons.mp hf with rfl | hmem
        · rfl
        · have := ih (k + 1) (nid + 1)
          rw [hgo] at this
          exact this f hmem

/-- C7 amended: in every reachable queue state of the newer revision, a
`success` entry always carries a recorded `uploadedUrl` (every transition
to `success` records a resolved location, falling back to the locally
synthesized one).  The converse direction of the claim fails, see the
counterexample: `retryFile` and the `uploading` transition preserve a
previously recorded location. -/
theorem manager_success_has_url (cfg : UploadManagerConfig) (s : List UploadFile × Nat)
    (h : ManagerReachable cfg s) :
    ∀ f ∈ s.1, f.status = .success → f.uploadedUrl.isSome = true := by
  induction h with
  | init => intro f hf; simp at hf
  | @step s e hreach ih =>
    intro f hf hsucc
    cases e with
    | admitFiles cands =>
      rcases List.mem_append.mp hf with hold | hnew
      · exact ih f hold hsucc
      · rw [addFilesGo_entries_pending cfg s.1.length cands 0 s.2 f hnew] at hsucc
        cases hsucc
    | claim id now =>
      rcases List.mem_map.mp hf with ⟨g, hg, rfl⟩
      by_cases hid : g.id = id
      · rw [if_pos hid] at hsucc ⊢
        cases hsucc
      · rw [if_neg hid] at hsucc ⊢
        exact ih g hg hsucc
    | settleSuccess id url fileUrl =>
      rcases List.mem_map.mp hf with ⟨g, hg, rfl⟩
      by_cases hid : g.id = id
      · rw [if_pos hid]
        rfl
      · rw [if_neg hid] at hsucc ⊢
        exact ih g hg hsucc
    | settleError id msg =>
      rcases List.mem_map.mp hf with ⟨g, hg, rfl⟩
      by_cases hid : g.id = id
      · rw [if_pos hid] at hsucc
        cases hsucc
      · rw [if_neg hid] at hsucc ⊢
        exact ih g hg hsucc
    | settleCancelled id =>
      rcases List.mem_map.mp hf with ⟨g, hg, rfl⟩
      by_cases hid : g.id = id
      · rw [if_pos hid] at hsucc
        cases hsucc
      · rw [if_neg hid] at hsucc ⊢
        exact ih g hg hsucc
    | reportProgress id p now =>
      rcases List.mem_map.mp hf with ⟨g, hg, rfl⟩
      by_cases hid : g.id = id
      · rw [if_pos hid] at hsucc ⊢
        exact ih g hg hsucc
      · rw [if_neg hid] at hsucc ⊢
        exact ih g hg hsucc
    | retry id =>
      have hf2 : f ∈ (retryFile s.1 id).1 := hf
      unfold retryFile at hf2
      cases hfind : s.1.find? (fun g => g.id = id) with
      | none =>
        rw [hfind] at hf2
        exact ih f hf2 hsucc
      | some g0 =>
        rw [hfind] at hf2
        rcases List.mem_map.mp hf2 with ⟨g, hg, rfl⟩
        by_cases hid : g.id = id
        · rw [if_pos hid] at hsucc
          cases hsucc
        · rw [if_neg hid] at hsucc ⊢
          exact ih g hg hsucc
    | remove id =>
      have hf2 : f ∈ s.1.filter (fun g => ¬ g.id = id) := hf
      exact ih f (List.mem_of_mem_filter hf2) hsucc
    | clearAll =>
      exact absurd (show f ∈ ([] : List UploadFile) from hf) (List.not_mem_nil f)

/-- A reachable state holding one successfully uploaded entry. -/
def successRoundState : List UploadFile × Nat :=
  [ManagerEvent.admitFiles [⟨"a.png", 4, "image/png"⟩],
   ManagerEvent.claim 0 5,
   ManagerEvent.settleSuccess 0 (some "https://cdn/a.png") none].foldl
    (managerStep defaultConfig) ([], 0)

theorem manager_success_has_url_witness :
    (successRoundState.1.headD (mkUploadFile 9 ⟨"x", 0, "x"⟩)).uploadedUrl.isSome = true :=
  manager_success_has_url defaultConfig successRoundState
    (((ManagerReachable.init.step (.admitFiles [⟨"a.png", 4, "image/png"⟩])).step
      (.claim 0 5)).step (.settleSuccess 0 (some "https://cdn/a.png") none))
    (successRoundState.1.headD (mkUploadFile 9 ⟨"x", 0, "x"⟩)) (by decide) (by decide)

/-! ## C2: the concurrency bound -/

/-- Number of entries currently marked `uploading`. -/
def uploadingCount (files : List UploadFile) : Nat :=
  (files.filter fun f => f.status = .uploading).length

/-- Five staged pending entries. -/
def fivePending : List UploadFile :=
  [mkUploadFile 0 ⟨"a.png", 4, "image/png"⟩,
   mkUploadFile 1 ⟨"b.png", 4, "image/png"⟩,
   mkUploadFile 2 ⟨"c.png", 4, "image/png"⟩,
   mkUploadFile 3 ⟨"d.png", 4, "image/png"⟩,
   mkUploadFile 4 ⟨"e.png", 4, "image/png"⟩]

/-- C2 is false as stated: with the default configuration
(`maxConcurrentTransfers = 3`, batching enabled with `maxBatchSize = 5`),
one `processQueue` pass over five pending entries reaches a state with
five entries at `status = uploading`. -/
theorem concurrency_bound_counterexample :
    SchedulerReachable defaultConfig (processQueue defaultConfig 0 ⟨fivePending, fivePending, [], [], []⟩) ∧
    uploadingCount (processQueue defaultConfig 0 ⟨fivePending, fivePending, [], [], []⟩).files = 5 ∧
    defaultConfig.concurrency = 3 :=
  ⟨SchedulerReachable.sched 0 (SchedulerReachable.init fivePending (by decide) (by decide)),
   by decide, rfl⟩

/-- The bound that actually holds on the number of `uploading` entries:
`maxConcurrentTransfers` when uploads are individual, but
`maxConcurrentTransfers - 1 + maxBatchSize` when batching is on (a batch of
up to `batchSize` files starts whenever at least one slot is free). -/
def concurrencyBound (cfg : UploadManagerConfig) : Nat :=
  if cfg.enableBatching ∧ 1 < cfg.batchSize then cfg.concurrency - 1 + cfg.batchSize
  else cfg.concurrency

/-- Inductive invariant of the scheduler: the ids of the `files` state and
of the ref mirror are each pairwise distinct, the active-id set is
duplicate-free and bounded, and every `uploading` entry of the `files`
state is claimed in the active set. -/
def SchedInv (cfg : UploadManagerConfig) (s : SchedulerState) : Prop :=
  (s.files.map UploadFile.id).Nodup ∧
  (s.queueRef.map UploadFile.id).Nodup ∧
  s.active.Nodup ∧
  (∀ f ∈ s.files, f.status = .uploading → f.id ∈ s.active) ∧
  s.active.length ≤ concurrencyBound cfg

theorem mem_pendingNotActive {s : SchedulerState} {f : UploadFile}
    (h : f ∈ pendingNotActive s) : f ∈ s.queueRef ∧ f.status = .pending ∧ f.id ∉ s.active := by
  have h' := List.mem_filter.mp h
  exact ⟨h'.1, of_decide_eq_true h'.2⟩

/-- Facts about the ids of a prefix of the schedulable ref entries. -/
theorem take_pending_ids_spec (s : SchedulerState) (m : Nat)
    (href : (s.queueRef.map UploadFile.id).Nodup) :
    (((pendingNotActive s).take m).map UploadFile.id).Nodup ∧
    (∀ a ∈ ((pendingNotActive s).take m).map UploadFile.id, a ∉ s.active) ∧
    (((pendingNotActive s).take m).map UploadFile.id).length ≤ m := by
  have hsub : List.Sublist ((pendingNotActive s).take m) s.queueRef :=
    (List.take_sublist _ _).trans (List.filter_sublist _)
  refine ⟨href.sublist (hsub.map UploadFile.id), ?_, ?_⟩
  · intro a ha
    rcases List.mem_map.mp ha with ⟨f, hf, rfl⟩
    have hmem : f ∈ pendingNotActive s := List.mem_of_mem_take hf
    exact (mem_pendingNotActive hmem).2.2
  · rw [List.length_map]
    exact (List.length_take_le _ _)

/-- Starting the first `m` schedulable ref entries preserves the
invariant, provided the enlarged active set still fits the bound. -/
theorem sched_start_inv (cfg : UploadManagerConfig) (now : Nat) (s : SchedulerState)
    (h : SchedInv cfg s) (m : Nat) (inf : List (List Nat)) (log : List (List UploadFile))
    (hlen : s.active.length + (((pendingNotActive s).take m).map UploadFile.id).length
        ≤ concurrencyBound cfg) :
    SchedInv cfg
      ⟨s.files.map fun f =>
          if f.id ∈ ((pendingNotActive s).take m).map UploadFile.id then markUploading now f
          else f,
        s.queueRef,
        s.active ++ ((pendingNotActive s).take m).map UploadFile.id, inf, log⟩ := by
  obtain ⟨hids, href, hactive, hup, hbound⟩ := h
  obtain ⟨hnodup, hdisj, _⟩ := take_pending_ids_spec s m href
  refine ⟨?_, href, ?_, ?_, ?_⟩
  · rw [map_ids_of_preserve]
    · exact hids
    · intro f _
      split <;> rfl
  · exact hactive.append hnodup fun a ha hb => hdisj a hb ha
  · intro f' hf' hupf
    rcases List.mem_map.mp hf' with ⟨f, hf, rfl⟩
    by_cases hin : f.id ∈ ((pendingNotActive s).take m).map UploadFile.id
    · rw [if_pos hin]
      exact List.mem_append_right _ hin
    · rw [if_neg hin] at hupf ⊢
      exact List.mem_append_left _ (hup f hf hupf)
  · rw [List.length_append]
    exact hlen

/-- `processQueue` preserves the invariant. -/
theorem processQueue_inv (cfg : UploadManagerConfig) (now : Nat) (s : SchedulerState)
    (h : SchedInv cfg s) : SchedInv cfg (processQueue cfg now s) := by
  obtain ⟨hids, href, hactive, hup, hbound⟩ := h
  unfold processQueue
  dsimp only
  by_cases hcond : cfg.enableBatching ∧ 1 < cfg.batchSize
  · rw [if_pos hcond]
    by_cases hstart : s.active.length < cfg.concurrency ∧ pendingNotActive s ≠ []
    · rw [if_pos hstart]
      refine sched_start_inv cfg now s ⟨hids, href, hactive, hup, hbound⟩ cfg.batchSize _ _ ?_
      have hlen := (take_pending_ids_spec s cfg.batchSize href).2.2
      have hc : s.active.length < cfg.concurrency := hstart.1
      unfold concurrencyBound
      rw [if_pos hcond]
      omega
    · rw [if_neg hstart]
      exact ⟨hids, href, hactive, hup, hbound⟩
  · rw [if_neg hcond]
    refine sched_start_inv cfg now s ⟨hids, href, hactive, hup, hbound⟩
      (cfg.concurrency - s.active.length) _ _ ?_
    have hlen := (take_pending_ids_spec s (cfg.concurrency - s.active.length) href).2.2
    have hbound' : s.active.length ≤ cfg.concurrency := by
      unfold concurrencyBound at hbound
      rw [if_neg hcond] at hbound
      exact hbound
    unfold concurrencyBound
    rw [if_neg hcond]
    omega

/-- Settling an in-flight Transfer Unit preserves the invariant. -/
theorem settleUnit_inv (cfg : UploadManagerConfig) (now : Nat) (s : SchedulerState)
    (ids : List Nat) (sett : BatchSettle) (h : SchedInv cfg s) :
    SchedInv cfg (settleUnit cfg now s ids sett) := by
  obtain ⟨hids, href, hactive, hup, hbound⟩ := h
  unfold settleUnit
  dsimp only
  apply processQueue_inv
  refine ⟨?_, href, ?_, ?_, ?_⟩
  · rw [map_ids_of_preserve]
    · exact hids
    · intro f _
      cases hbi : batchIdx ids f.id with
      | some i => simp only [hbi]; exact settleBatchFile_id _ _ _ _
      | none => simp only [hbi]
  · exact hactive.filter _
  · intro f' hf' hupf
    rcases List.mem_map.mp hf' with ⟨f, hf, rfl⟩
    cases hbi : batchIdx ids f.id with
    | some i =>
      rw [hbi] at hupf
      exact absurd hupf (settleBatchFile_status_ne_uploading _ _ _ _)
    | none =>
      rw [hbi] at hupf
      have hnotin : f.id ∉ ids := (batchIdx_eq_none_iff ids f.id).mp hbi
      exact List.mem_filter.mpr ⟨hup f hf hupf, decide_eq_true hnotin⟩
  · exact (List.length_filter_le _ _).trans hbound

/-- Every reachable scheduler state satisfies the invariant. -/
theorem schedulerReachable_inv (cfg : UploadManagerConfig) (s : SchedulerState)
    (h : SchedulerReachable cfg s) : SchedInv cfg s := by
  induction h with
  | init files hpend hnodup =>
    refine ⟨hnodup, hnodup, List.nodup_nil, ?_, Nat.zero_le _⟩
    intro f hf hupf
    rw [hpend f hf] at hupf
    cases hupf
  | sched now _ ih => exact processQueue_inv _ _ _ ih
  | settle now ids outcome _ _ ih => exact settleUnit_inv _ _ _ _ _ ih

/-- C2 amended: in every reachable scheduler state, the number of entries
with `status = uploading` is bounded by `maxConcurrentTransfers` when
batching is disabled (or `maxBatchSize ≤ 1`), and by
`maxConcurrentTransfers - 1 + maxBatchSize` when batching is enabled — the
batching path can mark a whole batch `uploading` whenever a single slot is
free, so the bound `maxConcurrentTransfers` itself does not hold (see the
counterexample). -/
theorem scheduler_uploading_bounded (cfg : UploadManagerConfig) (s : SchedulerState)
    (h : SchedulerReachable cfg s) :
    uploadingCount s.files ≤ concurrencyBound cfg := by
  obtain ⟨hids, href, hactive, hup, hbound⟩ := schedulerReachable_inv cfg s h
  have hsub : List.Sublist (s.files.filter fun f => f.status = .uploading) s.files :=
    List.filter_sublist _
  have hnodup : ((s.files.filter fun f => f.status = .uploading).map UploadFile.id).Nodup :=
    hids.sublist (hsub.map UploadFile.id)
  have hsubset : ∀ a ∈ (s.files.filter fun f => f.status = .uploading).map UploadFile.id,
      a ∈ s.active := by
    intro a ha
    rcases List.mem_map.mp ha with ⟨f, hf, rfl⟩
    have h' := List.mem_filter.mp hf
    exact hup f h'.1 (of_decide_eq_true h'.2)
  have hlen := nodup_subset_length_le hnodup hsubset
  rw [List.length_map] at hlen
  exact le_trans hlen hbound

theorem scheduler_uploading_bounded_witness :
    uploadingCount (processQueue defaultConfig 0 ⟨fivePending, fivePending, [], [], []⟩).files
      ≤ concurrencyBound defaultConfig :=
  scheduler_uploading_bounded defaultConfig _
    (SchedulerReachable.sched 0 (SchedulerReachable.init fivePending (by decide) (by decide)))
